import Mathlib

/-!
Shallow embedding of the tiered read-through cache layer of the Bathbot
repository (src/core/redis_cache.rs, src/commands/osu/mod.rs,
src/database/impls/osu_users.rs) and proofs about the frozen claims.

Rust strings are modelled as lists of Unicode code points (`List Nat`);
byte buffers likewise.  The asynchronous effects of each operation
(redis reads/writes, upstream HTTP fetches, database calls) are modelled
by an explicit environment record holding the outcome of each external
call, and an effect record collecting the calls the operation performed.
-/

set_option autoImplicit false

namespace Bathbot

/-! ## Basic data -/

/-- Rust `str` / `String` contents: the list of Unicode code points. -/
abbrev Str := List Nat

/-- Code points of a Lean string literal (used to transcribe Rust string literals). -/
def strLit (s : String) : Str := s.data.map Char.toNat

/-- `rosu_v2::prelude::GameMode`; `mode as u8` is 0,1,2,3 in declaration order
(`Osu`, `Taiko`, `Catch`, `Mania`). -/
inductive GameMode
  | Osu
  | Taiko
  | Catch
  | Mania
deriving DecidableEq

/-- The `mode as u8` cast used when formatting cache keys. -/
def modeNat : GameMode → Nat
  | .Osu => 0
  | .Taiko => 1
  | .Catch => 2
  | .Mania => 3

/-- Fueled little-endian decimal digit computation (kernel-reducible). -/
def digitsAux : Nat → Nat → List Nat
  | _, 0 => []
  | 0, _ + 1 => []
  | fuel + 1, n + 1 => (n + 1) % 10 :: digitsAux fuel ((n + 1) / 10)

/-- The code points Rust `format!` produces for an unsigned integer:
its decimal digits, most significant first. -/
def natDigits (n : Nat) : Str :=
  if n = 0 then [48] else ((digitsAux n n).map fun d => 48 + d).reverse

/-! ## Cache keys (src/core/redis_cache.rs)

Each key is transcribed from the `format!` expression in the source; the
explicit code-point lists below spell out the Rust string literals
(see the `_spec` lemmas relating them to `strLit` of the literal). -/

/-- Key `"osekai_badges"` (`RedisCache::badges`). -/
def badges_key : Str := [111, 115, 101, 107, 97, 105, 95, 98, 97, 100, 103, 101, 115]

/-- Key `"osekai_medals"` (`RedisCache::medals`). -/
def medals_key : Str := [111, 115, 101, 107, 97, 105, 95, 109, 101, 100, 97, 108, 115]

/-- Key `format!("osekai_ranking_{}", R::FORM)` (`RedisCache::osekai_ranking`). -/
def osekai_ranking_key (form : Str) : Str :=
  [111, 115, 101, 107, 97, 105, 95, 114, 97, 110, 107, 105, 110, 103, 95] ++ form

/-- Key `format!("osutracker_pp_group_{pp}")` (`RedisCache::osutracker_pp_group`). -/
def osutracker_pp_group_key (pp : Nat) : Str :=
  [111, 115, 117, 116, 114, 97, 99, 107, 101, 114, 95, 112, 112, 95, 103, 114, 111, 117, 112, 95] ++
    natDigits pp

/-- Key `"osutracker_stats"` (`RedisCache::osutracker_stats`). -/
def osutracker_stats_key : Str :=
  [111, 115, 117, 116, 114, 97, 99, 107, 101, 114, 95, 115, 116, 97, 116, 115]

/-- Key `"osutracker_id_counts"` (`RedisCache::osutracker_counts`). -/
def osutracker_counts_key : Str :=
  [111, 115, 117, 116, 114, 97, 99, 107, 101, 114, 95, 105, 100, 95, 99, 111, 117, 110, 116, 115]

/-- The optional `_{country}` piece appended to the pp-ranking key. -/
def countryTail : Option Str → Str
  | none => []
  | some c => 95 :: c

/-- Key `format!("pp_ranking_{}_{page}", mode as u8)` plus optional
`write!(key, "_{country}")` (`RedisCache::pp_ranking`). -/
def pp_ranking_key (mode : GameMode) (page : Nat) (country : Option Str) : Str :=
  [112, 112, 95, 114, 97, 110, 107, 105, 110, 103, 95] ++ natDigits (modeNat mode) ++
    [95] ++ natDigits page ++ countryTail country

/-- Key `format!("__{}_{}", args.name, args.mode as u8)` (`RedisCache::osu_user`). -/
def osu_user_key (name : Str) (mode : GameMode) : Str :=
  [95, 95] ++ name ++ [95] ++ natDigits (modeNat mode)

/-- One logical cached entity, tagged by entity type together with its
identifying fields. -/
inductive EntityId
  | badges
  | medals
  | osekaiRanking (form : Str)
  | osutrackerPpGroup (pp : Nat)
  | osutrackerStats
  | osutrackerCounts
  | ppRanking (mode : GameMode) (page : Nat) (country : Option Str)
  | osuUser (name : Str) (mode : GameMode)
deriving DecidableEq

/-- The cache key of a logical entity: a deterministic function of the
entity type tag and its identifying fields only. -/
def keyOf : EntityId → Str
  | .badges => badges_key
  | .medals => medals_key
  | .osekaiRanking form => osekai_ranking_key form
  | .osutrackerPpGroup pp => osutracker_pp_group_key pp
  | .osutrackerStats => osutracker_stats_key
  | .osutrackerCounts => osutracker_counts_key
  | .ppRanking mode page country => pp_ranking_key mode page country
  | .osuUser name mode => osu_user_key name mode

/-! ## TTL constants (src/core/redis_cache.rs lines 41-48) -/

def USER_SECONDS : Nat := 600
def OSUTRACKER_STATS_SECONDS : Nat := 86400
def OSUTRACKER_PP_GROUP_SECONDS : Nat := 86400
def OSUTRACKER_COUNTS_SECONDS : Nat := 86400
def MEDALS_SECONDS : Nat := 3600
def BADGES_SECONDS : Nat := 7200
def OSEKAI_RANKING : Nat := 7200
def PP_RANKING_SECONDS : Nat := 1800

/-! ## Generic read-through operation

`badges`, `medals`, `osekai_ranking`, `osutracker_pp_group`,
`osutracker_stats`, `osutracker_counts` and `pp_ranking` all share one
body shape (src/core/redis_cache.rs): try to acquire a redis connection;
on success `GET key`; a non-empty byte answer is a hit (increment the
per-type counter, return the bytes); otherwise fetch upstream, serialize,
`SET key bytes EX ttl` (best effort) and return the fresh bytes; if the
connection could not be acquired, fetch upstream and return the fresh
bytes without touching the cache.  `ε` is the upstream error type
(`Report` for the osekai/osutracker endpoints, `OsuError` for
`pp_ranking`), `α` the fetched entity type, `ser` the rkyv serializer. -/

/-- Environment for one generic read-through call: the outcome of each
external interaction it may perform. -/
structure EntityEnv (ε α : Type) where
  /-- Did `self.ctx.redis_client().get().await` succeed? -/
  connOk : Bool
  /-- `conn.get::<_, Vec<u8>>(key).await`: `some bytes` on `Ok`, `none` on `Err`. -/
  cacheGet : Option Str
  /-- Result of the upstream fetch (`self.ctx.client().get_...()`). -/
  upstream : Except ε α

/-- Externally visible calls performed by one generic read-through call. -/
structure EntityEffects where
  /-- Number of `self.ctx.stats.inc_cached_...()` increments. -/
  metricsInc : Nat
  /-- Number of upstream fetches issued. -/
  upstreamCalls : Nat
  /-- `SET key bytes EX ttl` attempts, in order. -/
  cacheWrites : List (Str × Str × Nat)
deriving DecidableEq

/-- Miss path: fetch upstream, serialize, write through (best effort). -/
def fetchAndWrite {ε α : Type} (key : Str) (ttl : Nat) (ser : α → Str) (env : EntityEnv ε α) :
    Except ε Str × EntityEffects :=
  match env.upstream with
  | .error e => (.error e, ⟨0, 1, []⟩)
  | .ok a => (.ok (ser a), ⟨0, 1, [(key, ser a, ttl)]⟩)

/-- The shared read-through body (see the section comment above).  The
returned `Str` models the `ArchivedBytes` wrapper: on a hit the raw bytes
read back from the cache, on a miss the freshly serialized buffer. -/
def entityOp {ε α : Type} (key : Str) (ttl : Nat) (ser : α → Str) (env : EntityEnv ε α) :
    Except ε Str × EntityEffects :=
  if env.connOk then
    match env.cacheGet with
    | some bytes =>
      if bytes.isEmpty then fetchAndWrite key ttl ser env
      else (.ok bytes, ⟨1, 0, []⟩)
    | none => fetchAndWrite key ttl ser env
  else
    match env.upstream with
    | .error e => (.error e, ⟨0, 1, []⟩)
    | .ok a => (.ok (ser a), ⟨0, 1, []⟩)

/-- `RedisCache::badges`. -/
def badges {ε α : Type} (ser : α → Str) (env : EntityEnv ε α) : Except ε Str × EntityEffects :=
  entityOp badges_key BADGES_SECONDS ser env

/-- `RedisCache::medals`. -/
def medals {ε α : Type} (ser : α → Str) (env : EntityEnv ε α) : Except ε Str × EntityEffects :=
  entityOp medals_key MEDALS_SECONDS ser env

/-- `RedisCache::osekai_ranking`. -/
def osekai_ranking {ε α : Type} (form : Str) (ser : α → Str) (env : EntityEnv ε α) :
    Except ε Str × EntityEffects :=
  entityOp (osekai_ranking_key form) OSEKAI_RANKING ser env

/-- `RedisCache::osutracker_pp_group`. -/
def osutracker_pp_group {ε α : Type} (pp : Nat) (ser : α → Str) (env : EntityEnv ε α) :
    Except ε Str × EntityEffects :=
  entityOp (osutracker_pp_group_key pp) OSUTRACKER_PP_GROUP_SECONDS ser env

/-- `RedisCache::osutracker_stats`. -/
def osutracker_stats {ε α : Type} (ser : α → Str) (env : EntityEnv ε α) :
    Except ε Str × EntityEffects :=
  entityOp osutracker_stats_key OSUTRACKER_STATS_SECONDS ser env

/-- `RedisCache::osutracker_counts`. -/
def osutracker_counts {ε α : Type} (ser : α → Str) (env : EntityEnv ε α) :
    Except ε Str × EntityEffects :=
  entityOp osutracker_counts_key OSUTRACKER_COUNTS_SECONDS ser env

/-- `RedisCache::pp_ranking`. -/
def pp_ranking {ε α : Type} (mode : GameMode) (page : Nat) (country : Option Str)
    (ser : α → Str) (env : EntityEnv ε α) : Except ε Str × EntityEffects :=
  entityOp (pp_ranking_key mode page country) PP_RANKING_SECONDS ser env

/-! ## The user entity (src/core/redis_cache.rs, RedisCache::osu_user) -/

/-- `rosu_v2::prelude::User`, reduced to the fields this layer manipulates:
`user_id` and `username` (used by `upsert_osu_name`), `page` (taken out
before caching), and `rest`, which stands for the tuple of all remaining
fields (carried through unchanged everywhere). -/
structure User where
  user_id : Nat
  username : Str
  page : Option Str
  rest : Nat
deriving DecidableEq

/-- `rosu_v2::OsuError`, reduced to the distinction this layer makes:
`NotFound` versus every other (transient) error, the latter carrying an
opaque code. -/
inductive OsuError
  | notFound
  | response (code : Nat)
deriving DecidableEq

/-- Model of the rkyv codec for `User` (`rkyv::to_bytes` /
`archived_root` + `deserialize`): a deterministic, injective, non-empty
serialization with `deserUser` as its inverse. -/
def serUser (u : User) : Str :=
  u.user_id :: u.rest :: u.username.length :: (u.username ++
    (match u.page with
     | none => [0]
     | some p => 1 :: p.length :: p))

/-- Model of rkyv deserialization of `User` bytes; inverse of `serUser`
on buffers produced by `serUser`. -/
def deserUser (b : Str) : User :=
  match b with
  | uid :: rest :: ulen :: t =>
    match t.drop ulen with
    | 1 :: plen :: pt => ⟨uid, t.take ulen, some (pt.take plen), rest⟩
    | _ => ⟨uid, t.take ulen, none, rest⟩
  | _ => ⟨0, [], none, 0⟩

/-- `user.page.take()` applied to a fresh copy: the user with the html
page removed, all other fields unchanged. -/
def erasePage (u : User) : User := { u with page := none }

/-- `UserArgs` (src/commands/osu/mod.rs lines 331-352). -/
structure UserArgs where
  name : Str
  mode : GameMode
deriving DecidableEq

deriving instance DecidableEq for Except

/-- Environment for one `RedisCache::osu_user` call. -/
structure OsuUserEnv where
  /-- Did `self.ctx.redis_client().get().await` succeed? -/
  connOk : Bool
  /-- `conn.get::<_, Vec<u8>>(&key).await`: `some bytes` on `Ok`, `none` on `Err`. -/
  cacheGet : Option Str
  /-- Result of `self.ctx.osu().user(args.name).mode(args.mode).await`. -/
  upstream : Except OsuError User
  /-- Does `psql().remove_osu_user_stats` fail (logged, ignored)? -/
  removeStatsFails : Bool
  /-- Does `psql().upsert_osu_user` fail (logged, ignored)? -/
  upsertFails : Bool
deriving DecidableEq

/-- Externally visible calls performed by one `osu_user` call. -/
structure OsuUserEffects where
  /-- Number of `self.ctx.stats.inc_cached_user()` increments. -/
  cachedUserInc : Nat
  /-- Number of upstream `osu().user(..)` fetches issued. -/
  upstreamCalls : Nat
  /-- Arguments of `psql().remove_osu_user_stats` calls, in order. -/
  removeStats : List Str
  /-- Arguments of `psql().upsert_osu_user` calls, in order. -/
  upserts : List (User × GameMode)
  /-- Arguments of `psql().upsert_osu_name` calls, in order. -/
  nameUpdates : List (Nat × Str)
  /-- `SET key bytes EX ttl` attempts, in order. -/
  cacheWrites : List (Str × Str × Nat)
deriving DecidableEq

/-- No external calls. -/
def noEffects : OsuUserEffects := ⟨0, 0, [], [], [], []⟩

/-- The miss path of `osu_user` when a redis connection is held
(src/core/redis_cache.rs lines 425-468): fetch upstream; on `NotFound`
remove the user's stats rows (best effort) and propagate `NotFound`; on
another error propagate it; on success upsert the user (best effort),
take out the html page, serialize, `SET .. EX 600` and update the stored
username (both best effort), and return the page-less user. -/
def osuUserMiss (env : OsuUserEnv) (args : UserArgs) (key : Str) :
    Except OsuError User × OsuUserEffects :=
  match env.upstream with
  | .error .notFound =>
    (.error .notFound, { noEffects with upstreamCalls := 1, removeStats := [args.name] })
  | .error e => (.error e, { noEffects with upstreamCalls := 1 })
  | .ok user =>
    (.ok (erasePage user),
     { noEffects with
        upstreamCalls := 1
        upserts := [(user, args.mode)]
        nameUpdates := [(user.user_id, user.username)]
        cacheWrites := [(key, serUser (erasePage user), USER_SECONDS)] })

/-- `RedisCache::osu_user` (src/core/redis_cache.rs lines 374-469). -/
def osu_user (env : OsuUserEnv) (args : UserArgs) : Except OsuError User × OsuUserEffects :=
  let key := osu_user_key args.name args.mode
  if env.connOk then
    match env.cacheGet with
    | some bytes =>
      if bytes.isEmpty then osuUserMiss env args key
      else (.ok (deserUser bytes), { noEffects with cachedUserInc := 1 })
    | none => osuUserMiss env args key
  else
    match env.upstream with
    | .error .notFound =>
      (.error .notFound, { noEffects with upstreamCalls := 1, removeStats := [args.name] })
    | .error e => (.error e, { noEffects with upstreamCalls := 1 })
    | .ok user =>
      (.ok user, { noEffects with upstreamCalls := 1, upserts := [(user, args.mode)] })

/-- A generic read-through call is a cache hit exactly when the
connection was acquired and `GET` answered with non-empty bytes. -/
def entityHit {ε α : Type} (env : EntityEnv ε α) : Bool :=
  env.connOk &&
    (match env.cacheGet with
     | some bytes => !bytes.isEmpty
     | none => false)

/-- An `osu_user` call is a cache hit exactly when the connection was
acquired and `GET` answered with non-empty bytes. -/
def userHit (env : OsuUserEnv) : Bool :=
  env.connOk &&
    (match env.cacheGet with
     | some bytes => !bytes.isEmpty
     | none => false)

/-- The cache holds at most what a previous miss-populate run wrote for
this upstream user: any non-empty cached bytes are the serialization of
the page-less user. -/
def validCacheFor (u : User) (env : OsuUserEnv) : Prop :=
  ∀ b, env.cacheGet = some b → b ≠ [] → b = serUser (erasePage u)

/-! ## get_user and the underscore retry (src/commands/osu/mod.rs) -/

/-- `UserArgs::whitespaced_name` (lines 341-352): `None` when the name
starts or ends with an underscore, otherwise the name with every
underscore replaced by a space when at least one replacement happens
(`cow_replace` returns `Owned`), else `None` (`Borrowed`). -/
def whitespaced_name (name : Str) : Option Str :=
  if name.head? = some 95 ∨ name.getLast? = some 95 then none
  else if 95 ∈ name then some (name.map fun c => if c = 95 then 32 else c)
  else none

/-- `get_user` (lines 220-233), with `lookup` standing for
`ctx.redis().osu_user` on given name and mode.  Returns the result
together with the list of `osu_user` invocations, in order. -/
def get_user (lookup : Str → GameMode → Except OsuError User) (user : UserArgs) :
    Except OsuError User × List (Str × GameMode) :=
  match whitespaced_name user.name with
  | some alt_name =>
    match lookup user.name user.mode with
    | .error .notFound =>
      (lookup alt_name user.mode, [(user.name, user.mode), (alt_name, user.mode)])
    | result => (result, [(user.name, user.mode)])
  | none => (lookup user.name user.mode, [(user.name, user.mode)])

/-! ## Combo enrichment (src/commands/osu/mod.rs, prepare_score / prepare_scores) -/

/-- `rosu_v2` `BeatmapCompact`, reduced to the fields used here. -/
structure BeatmapCompact where
  map_id : Nat
  mode : GameMode
  max_combo : Option Nat
deriving DecidableEq

/-- `rosu_v2` `Score`, reduced to the fields used here. -/
structure Score where
  mode : GameMode
  map : Option BeatmapCompact
deriving DecidableEq

/-- The `map.map_id as i32` cast used for the batched DB read. -/
def toI32 (n : Nat) : Int :=
  if n % 2 ^ 32 < 2 ^ 31 then (n % 2 ^ 32 : Int) else (n % 2 ^ 32 : Int) - 2 ^ 32

/-- External calls performed by the enrichment functions, in order. -/
inductive DbEvent
  /-- `psql().get_beatmaps_combo(&map_ids)` (batched DB read). -/
  | comboRead (ids : List Int)
  /-- `osu().beatmaps(ids)` (batched upstream fetch). -/
  | upstreamBatch (ids : List Nat)
  /-- `psql().get_beatmap_combo(map_id)` (single DB read). -/
  | comboReadSingle (id : Nat)
  /-- `osu().beatmap().map_id(map_id)` (single upstream fetch). -/
  | upstreamSingle (id : Nat)
deriving DecidableEq

/-- Environment for one `prepare_scores` call. -/
structure ScoresEnv where
  /-- Result of `psql().get_beatmaps_combo(&map_ids)`, as an association
  list from map id to the optional stored combo. -/
  dbCombos : List Int → Except Unit (List (Nat × Option Nat))
  /-- Result of `osu().beatmaps(ids)` for a batch of ids. -/
  fetchMaps : List Nat → Except OsuError (List BeatmapCompact)

/-- The value `get_beatmaps_combo` contributes to the flow: its map on
success, `HashMap::default()` (logged warning) on failure. -/
def dbCombosResult (env : ScoresEnv) (ids : List Int) : List (Nat × Option Nat) :=
  match env.dbCombos ids with
  | .ok m => m
  | .error _ => []

/-- First pass of `prepare_scores` (lines 432-437): the ids of maps with
no max combo and mode other than mania
(`scores.iter().filter_map(|s| s.map.as_ref()).filter(..).map(|map| map.map_id as i32)`),
in score order. -/
def gatherMissingIds : List Score → List Int
  | [] => []
  | ⟨_, none⟩ :: rest => gatherMissingIds rest
  | ⟨_, some m⟩ :: rest =>
    if m.max_combo = none ∧ m.mode ≠ GameMode.Mania then toI32 m.map_id :: gatherMissingIds rest
    else gatherMissingIds rest

/-- Second pass of `prepare_scores` (lines 453-468): fill combos found in
the DB answer into the qualifying maps, and collect the ids still
missing (`None` or `Some(None)` in the map), in score order. -/
def fillFromDb (combos : List (Nat × Option Nat)) : List Score → List Score × List Nat
  | [] => ([], [])
  | ⟨smode, none⟩ :: rest =>
    let tail := fillFromDb combos rest
    (⟨smode, none⟩ :: tail.1, tail.2)
  | ⟨smode, some m⟩ :: rest =>
    let tail := fillFromDb combos rest
    if m.max_combo = none ∧ m.mode ≠ GameMode.Mania then
      match combos.lookup m.map_id with
      | some (some combo) => (⟨smode, some { m with max_combo := some combo }⟩ :: tail.1, tail.2)
      | _ => (⟨smode, some m⟩ :: tail.1, m.map_id :: tail.2)
    else (⟨smode, some m⟩ :: tail.1, tail.2)

/-- `scores.iter_mut().filter_map(|s| s.map.as_mut()).find(|m| m.map_id == map.map_id)`
followed by setting the found map's combo: update the first score whose
map carries the given id (lines 479-491). -/
def fillMapCombo (mapId combo : Nat) : List Score → List Score
  | [] => []
  | ⟨smode, none⟩ :: rest => ⟨smode, none⟩ :: fillMapCombo mapId combo rest
  | ⟨smode, some m⟩ :: rest =>
    if m.map_id = mapId then ⟨smode, some { m with max_combo := some combo }⟩ :: rest
    else ⟨smode, some m⟩ :: fillMapCombo mapId combo rest

/-- The body of `for map in ctx.osu().beatmaps(ids).await?`: each fetched
map carrying a max combo back-fills the first score map with its id. -/
def applyFetched (scores : List Score) : List BeatmapCompact → List Score
  | [] => scores
  | bm :: rest =>
    match bm.max_combo with
    | some combo => applyFetched (fillMapCombo bm.map_id combo scores) rest
    | none => applyFetched scores rest

/-- The chunk loop of `prepare_scores` (lines 475-494): for each chunk,
fetch the maps upstream (an error aborts the whole call via `?`) and
back-fill the combos. -/
def processChunks (env : ScoresEnv) : List Score → List (List Nat) →
    Except OsuError (List Score) × List DbEvent
  | scores, [] => (.ok scores, [])
  | scores, chunk :: rest =>
    match env.fetchMaps chunk with
    | .error e => (.error e, [.upstreamBatch chunk])
    | .ok maps =>
      let next := processChunks env (applyFetched scores maps) rest
      (next.1, .upstreamBatch chunk :: next.2)

/-- Rust `slice::chunks(n)`, fueled for kernel reducibility. -/
def chunksOfAux {α : Type} (n : Nat) : Nat → List α → List (List α)
  | _, [] => []
  | 0, _ :: _ => []
  | fuel + 1, a :: l => (a :: l).take n :: chunksOfAux n fuel ((a :: l).drop n)

/-- Rust `slice::chunks(n)` (`n > 0`): successive chunks of at most `n`
elements. -/
def chunksOf {α : Type} (n : Nat) (l : List α) : List (List α) :=
  chunksOfAux n l.length l

/-- `prepare_scores` (src/commands/osu/mod.rs lines 421-498), applied to
an already-resolved score list (an error of the wrapped future short
circuits before any of this code runs).  Returns the result and the list
of external calls, in order. -/
def prepare_scores (env : ScoresEnv) (scores : List Score) :
    Except OsuError (List Score) × List DbEvent :=
  let map_ids := gatherMissingIds scores
  if map_ids.isEmpty then (.ok scores, [])
  else
    let combos := dbCombosResult env map_ids
    let filled := fillFromDb combos scores
    if filled.2.isEmpty then (.ok filled.1, [.comboRead map_ids])
    else
      let next := processChunks env filled.1 (chunksOf 50 filled.2)
      (next.1, .comboRead map_ids :: next.2)

/-- Environment for one `prepare_score` call. -/
structure ScoreEnv where
  /-- Result of `psql().get_beatmap_combo(map_id)`. -/
  dbCombo : Nat → Except Unit (Option Nat)
  /-- Result of `osu().beatmap().map_id(map_id)`. -/
  fetchMap : Nat → Except OsuError BeatmapCompact

/-- `prepare_score` (src/commands/osu/mod.rs lines 394-418): enrich a
single score's map with its max combo, only when the score's mode is
osu! or catch and the map has no combo yet; DB first, upstream on a DB
miss or error (an upstream error propagates). -/
def prepare_score (env : ScoreEnv) (score : Score) : Except OsuError Score × List DbEvent :=
  match score.map with
  | some m =>
    if (score.mode = GameMode.Osu ∨ score.mode = GameMode.Catch) ∧ m.max_combo = none then
      match env.dbCombo m.map_id with
      | .ok (some combo) =>
        (.ok { score with map := some { m with max_combo := some combo } },
         [.comboReadSingle m.map_id])
      | _ =>
        match env.fetchMap m.map_id with
        | .error e => (.error e, [.comboReadSingle m.map_id, .upstreamSingle m.map_id])
        | .ok beatmap =>
          (.ok { score with map := some { m with max_combo := beatmap.max_combo } },
           [.comboReadSingle m.map_id, .upstreamSingle m.map_id])
    else (.ok score, [])
  | none => (.ok score, [])

/-- Does this score carry a mania-mode map? -/
def hasManiaMap (s : Score) : Bool :=
  match s.map with
  | some m => m.mode = GameMode.Mania
  | none => false

/-- Pointwise relation between a score list and its enriched version:
map identity (id and mode) is preserved, and a score carrying a
mania-mode map is left completely unchanged. -/
def maniaRel (s t : Score) : Prop :=
  (∀ m, t.map = some m → ∃ m0, s.map = some m0 ∧ m0.map_id = m.map_id ∧ m0.mode = m.mode) ∧
  (∀ m, s.map = some m → m.mode = GameMode.Mania → t = s)

/-! ## Lemmas: decimal digits -/

lemma digitsAux_eq_digits : ∀ (fuel n : Nat), n ≤ fuel → digitsAux fuel n = Nat.digits 10 n := by
  intro fuel
  induction fuel with
  | zero =>
    intro n hn
    interval_cases n
    simp [digitsAux]
  | succ fuel ih =>
    intro n hn
    match n with
    | 0 => simp [digitsAux]
    | m + 1 =>
      rw [digitsAux, Nat.digits_def' (by norm_num : (1 : Nat) < 10) (Nat.succ_pos m)]
      rw [ih ((m + 1) / 10) (by omega)]

lemma natDigits_zero : natDigits 0 = [48] := rfl

lemma natDigits_eq (n : Nat) (hn : n ≠ 0) :
    natDigits n = ((Nat.digits 10 n).map fun d => 48 + d).reverse := by
  rw [natDigits, if_neg hn, digitsAux_eq_digits n n le_rfl]

lemma natDigits_inj {a b : Nat} (h : natDigits a = natDigits b) : a = b := by
  by_cases ha : a = 0 <;> by_cases hb : b = 0
  · omega
  · exfalso
    rw [ha, natDigits_zero, natDigits_eq b hb] at h
    have h' : (Nat.digits 10 b).map (fun d => 48 + d) = [48] := by
      rw [← List.reverse_reverse ((Nat.digits 10 b).map fun d => 48 + d), ← h]
      rfl
    match hd : Nat.digits 10 b with
    | [] => rw [hd] at h'; simp at h'
    | d :: t =>
      rw [hd] at h'
      simp only [List.map_cons, List.cons.injEq] at h'
      have hd0 : d = 0 := by omega
      have ht : t = [] := by
        have := h'.2
        simpa using this
      have := Nat.ofDigits_digits 10 b
      rw [hd, hd0, ht] at this
      simp [Nat.ofDigits] at this
      exact hb this.symm
  · exfalso
    rw [hb, natDigits_zero, natDigits_eq a ha] at h
    have h' : (Nat.digits 10 a).map (fun d => 48 + d) = [48] := by
      rw [← List.reverse_reverse ((Nat.digits 10 a).map fun d => 48 + d), h]
      rfl
    match hd : Nat.digits 10 a with
    | [] => rw [hd] at h'; simp at h'
    | d :: t =>
      rw [hd] at h'
      simp only [List.map_cons, List.cons.injEq] at h'
      have hd0 : d = 0 := by omega
      have ht : t = [] := by
        have := h'.2
        simpa using this
      have := Nat.ofDigits_digits 10 a
      rw [hd, hd0, ht] at this
      simp [Nat.ofDigits] at this
      exact ha this.symm
  · rw [natDigits_eq a ha, natDigits_eq b hb] at h
    have h' := List.reverse_injective h
    have h'' : Nat.digits 10 a = Nat.digits 10 b := by
      have hinj : Function.Injective (fun d : Nat => 48 + d) := fun x y hxy => by
        simp only [] at hxy
        omega
      exact List.map_injective_iff.mpr hinj h'
    have := Nat.ofDigits_digits 10 a
    rw [h'', Nat.ofDigits_digits 10 b] at this
    exact this.symm

lemma natDigits_lt (n : Nat) : ∀ c ∈ natDigits n, 48 ≤ c ∧ c < 58 := by
  intro c hc
  by_cases h : n = 0
  · rw [h] at hc
    simp [natDigits] at hc
    omega
  · rw [natDigits_eq n h] at hc
    rw [List.mem_reverse] at hc
    obtain ⟨d, hd, hdc⟩ := List.mem_map.mp hc
    have := Nat.digits_lt_base (by norm_num) hd
    omega

lemma natDigits_ne_underscore (n : Nat) : ∀ c ∈ natDigits n, c ≠ 95 := by
  intro c hc
  have := natDigits_lt n c hc
  omega

lemma natDigits_ne_nil (n : Nat) : natDigits n ≠ [] := by
  by_cases h : n = 0
  · simp [h, natDigits]
  · rw [natDigits_eq n h]
    simp [Nat.digits_ne_nil_iff_ne_zero.mpr h]

/-! ## Lemmas: key literals match the Rust string literals -/

lemma badges_key_spec : badges_key = strLit "osekai_badges" := by decide

lemma medals_key_spec : medals_key = strLit "osekai_medals" := by decide

lemma osekai_ranking_key_spec (form : Str) :
    osekai_ranking_key form = strLit "osekai_ranking_" ++ form := by
  have : strLit "osekai_ranking_" =
      [111, 115, 101, 107, 97, 105, 95, 114, 97, 110, 107, 105, 110, 103, 95] := by decide
  rw [osekai_ranking_key, this]

lemma osutracker_stats_key_spec : osutracker_stats_key = strLit "osutracker_stats" := by decide

lemma osutracker_counts_key_spec :
    osutracker_counts_key = strLit "osutracker_id_counts" := by decide

lemma osutracker_pp_group_key_spec (pp : Nat) :
    osutracker_pp_group_key pp = strLit "osutracker_pp_group_" ++ natDigits pp := by
  have : strLit "osutracker_pp_group_" =
      [111, 115, 117, 116, 114, 97, 99, 107, 101, 114, 95, 112, 112, 95, 103, 114, 111, 117,
        112, 95] := by decide
  rw [osutracker_pp_group_key, this]

lemma pp_ranking_key_spec (mode : GameMode) (page : Nat) (country : Option Str) :
    pp_ranking_key mode page country =
      strLit "pp_ranking_" ++ natDigits (modeNat mode) ++ [95] ++ natDigits page ++
        countryTail country := by
  have : strLit "pp_ranking_" = [112, 112, 95, 114, 97, 110, 107, 105, 110, 103, 95] := by decide
  rw [pp_ranking_key, this]

/-! ## Lemmas: separator shapes and key injectivity -/

lemma countryTail_shape (c : Option Str) : countryTail c = [] ∨ ∃ s, countryTail c = 95 :: s := by
  cases c with
  | none => exact Or.inl rfl
  | some s => exact Or.inr ⟨s, rfl⟩

lemma countryTail_inj {c1 c2 : Option Str} (h : countryTail c1 = countryTail c2) : c1 = c2 := by
  cases c1 <;> cases c2 <;> simp_all [countryTail]

/-- If two underscore-free blocks are each followed by a tail that is either
empty or starts with an underscore, equality of the concatenations forces
equality of the parts.  This captures that `_` acts as an unambiguous
separator in the formatted cache keys. -/
lemma split_at_sep (L1 : Str) : ∀ (L2 t1 t2 : Str),
    (∀ c ∈ L1, c ≠ 95) → (∀ c ∈ L2, c ≠ 95) →
    (t1 = [] ∨ ∃ s, t1 = 95 :: s) → (t2 = [] ∨ ∃ s, t2 = 95 :: s) →
    L1 ++ t1 = L2 ++ t2 → L1 = L2 ∧ t1 = t2 := by
  induction L1 with
  | nil =>
    intro L2 t1 t2 _ h2 ht1 _ h
    cases L2 with
    | nil => exact ⟨rfl, h⟩
    | cons b L2 =>
      rw [List.nil_append] at h
      rcases ht1 with rfl | ⟨s, rfl⟩
      · exact absurd h (by simp)
      · rw [List.cons_append] at h
        injection h with hb _
        exact absurd hb.symm (h2 b (by simp))
  | cons a L1 ih =>
    intro L2 t1 t2 h1 h2 ht1 ht2 h
    cases L2 with
    | nil =>
      rw [List.nil_append, List.cons_append] at h
      rcases ht2 with rfl | ⟨s, rfl⟩
      · exact absurd h (by simp)
      · injection h with hb _
        exact absurd hb (h1 a (by simp))
    | cons b L2 =>
      rw [List.cons_append, List.cons_append] at h
      injection h with hab h
      subst hab
      obtain ⟨hL, ht⟩ := ih L2 t1 t2 (fun c hc => h1 c (List.mem_cons_of_mem _ hc))
        (fun c hc => h2 c (List.mem_cons_of_mem _ hc)) ht1 ht2 h
      exact ⟨by rw [hL], ht⟩

lemma modeNat_digits_length (mode : GameMode) : (natDigits (modeNat mode)).length = 1 := by
  cases mode <;> decide

lemma modeNat_inj {m1 m2 : GameMode} (h : modeNat m1 = modeNat m2) : m1 = m2 := by
  cases m1 <;> cases m2 <;> simp_all [modeNat]

lemma osu_user_key_inj {n1 n2 : Str} {m1 m2 : GameMode}
    (h : osu_user_key n1 m1 = osu_user_key n2 m2) : n1 = n2 ∧ m1 = m2 := by
  rw [osu_user_key, osu_user_key] at h
  have hlen : ([95] ++ natDigits (modeNat m1)).length = ([95] ++ natDigits (modeNat m2)).length := by
    simp [modeNat_digits_length]
  have h' : n1 ++ ([95] ++ natDigits (modeNat m1)) = n2 ++ ([95] ++ natDigits (modeNat m2)) := by
    have := h
    simp only [List.append_assoc, List.cons_append, List.nil_append] at this
    injection this with _ h2
    injection h2 with _ h3
  obtain ⟨hn, hd⟩ := List.append_inj' h' hlen
  have hd' : natDigits (modeNat m1) = natDigits (modeNat m2) := by
    injection hd with _ h2
  exact ⟨hn, modeNat_inj (natDigits_inj hd')⟩

lemma pp_ranking_key_inj {m1 m2 : GameMode} {p1 p2 : Nat} {c1 c2 : Option Str}
    (h : pp_ranking_key m1 p1 c1 = pp_ranking_key m2 p2 c2) :
    m1 = m2 ∧ p1 = p2 ∧ c1 = c2 := by
  rw [pp_ranking_key, pp_ranking_key] at h
  simp only [List.append_assoc] at h
  replace h := List.append_cancel_left h
  obtain ⟨hm, ht⟩ := split_at_sep _ _ _ _ (natDigits_ne_underscore _) (natDigits_ne_underscore _)
    (Or.inr ⟨_, rfl⟩) (Or.inr ⟨_, rfl⟩) h
  have ht' : natDigits p1 ++ countryTail c1 = natDigits p2 ++ countryTail c2 := by
    injection ht with _ h2
  obtain ⟨hp, hc⟩ := split_at_sep _ _ _ _ (natDigits_ne_underscore _) (natDigits_ne_underscore _)
    (countryTail_shape c1) (countryTail_shape c2) ht'
  exact ⟨modeNat_inj (natDigits_inj hm), natDigits_inj hp, countryTail_inj hc⟩

lemma map_eq_self_mem {f : Nat → Nat} : ∀ {l : Str}, l.map f = l → ∀ x ∈ l, f x = x := by
  intro l
  induction l with
  | nil => intro _ x hx; cases hx
  | cons a t ih =>
    intro h x hx
    rw [List.map_cons] at h
    injection h with h1 h2
    rcases List.mem_cons.mp hx with rfl | hx
    · exact h1
    · exact ih h2 x hx

/-! ## Lemmas: the modelled rkyv codec for `User` -/

lemma deserUser_serUser (u : User) : deserUser (serUser u) = u := by
  cases u with
  | mk uid uname page rest =>
    cases page with
    | none => simp [serUser, deserUser, List.drop_left, List.take_left]
    | some p => simp [serUser, deserUser, List.drop_left, List.take_left]

lemma serUser_ne_nil (u : User) : serUser u ≠ [] := by
  simp [serUser]

lemma erasePage_idem (u : User) : erasePage (erasePage u) = erasePage u := rfl

lemma hasManiaMap_none (smode : GameMode) : hasManiaMap ⟨smode, none⟩ = false := rfl

lemma hasManiaMap_some (smode : GameMode) (m : BeatmapCompact) :
    hasManiaMap ⟨smode, some m⟩ = decide (m.mode = GameMode.Mania) := rfl

/-! ## Lemmas: whitespaced_name -/

lemma whitespaced_name_eq_some {name alt : Str} :
    whitespaced_name name = some alt ↔
      name.head? ≠ some 95 ∧ name.getLast? ≠ some 95 ∧ 95 ∈ name ∧
        alt = name.map fun c => if c = 95 then 32 else c := by
  rw [whitespaced_name]
  split_ifs with h1 h2
  · simp only [reduceCtorEq, false_iff]
    intro hcon
    rcases h1 with h1 | h1
    · exact hcon.1 h1
    · exact hcon.2.1 h1
  · push_neg at h1
    simp [h1.1, h1.2, h2, eq_comm]
  · push_neg at h1
    simp [h1.1, h1.2, h2]

lemma whitespaced_name_eq_none {name : Str} :
    whitespaced_name name = none ↔
      name.head? = some 95 ∨ name.getLast? = some 95 ∨ 95 ∉ name := by
  rw [whitespaced_name]
  split_ifs with h1 h2
  · simp only [true_iff]
    tauto
  · push_neg at h1
    simp [h1.1, h1.2, h2]
  · push_neg at h1
    simp [h1.1, h1.2, h2]

lemma whitespaced_alt_ne {name alt : Str} (h : whitespaced_name name = some alt) : alt ≠ name := by
  obtain ⟨_, _, hmem, rfl⟩ := whitespaced_name_eq_some.mp h
  intro he
  have := map_eq_self_mem he 95 hmem
  simp at this

/-! ## Lemmas: chunks -/

lemma chunksOfAux_nil {α : Type} (n : Nat) : ∀ f, chunksOfAux n f ([] : List α) = [] := by
  intro f
  cases f <;> rfl

lemma chunksOfAux_congr {α : Type} (n : Nat) (hn : 0 < n) :
    ∀ (f1 f2 : Nat) (l : List α), l.length ≤ f1 → l.length ≤ f2 →
      chunksOfAux n f1 l = chunksOfAux n f2 l := by
  intro f1
  induction f1 with
  | zero =>
    intro f2 l h1 _
    have hl : l = [] := by
      cases l
      · rfl
      · simp at h1
    subst hl
    rw [chunksOfAux_nil, chunksOfAux_nil]
  | succ f1 ih =>
    intro f2 l h1 h2
    cases l with
    | nil => rw [chunksOfAux_nil, chunksOfAux_nil]
    | cons a t =>
      cases f2 with
      | zero => simp at h2
      | succ f2 =>
        rw [List.length_cons] at h1 h2
        simp only [chunksOfAux]
        congr 1
        refine ih f2 _ ?_ ?_ <;> rw [List.length_drop, List.length_cons] <;> omega

lemma chunksOf_nil {α : Type} (n : Nat) : chunksOf n ([] : List α) = [] := rfl

lemma chunksOf_cons {α : Type} (n : Nat) (hn : 0 < n) (a : α) (l : List α) :
    chunksOf n (a :: l) = (a :: l).take n :: chunksOf n ((a :: l).drop n) := by
  rw [chunksOf, chunksOf, List.length_cons]
  simp only [chunksOfAux]
  congr 1
  refine chunksOfAux_congr n hn l.length _ _ ?_ le_rfl
  simp [List.length_drop]
  omega

/-- Everything the claims need about `chunksOf 50`: each chunk is a
non-empty sub-slice of at most 50 elements, and there are exactly
`ceil(length / 50)` chunks. -/
lemma chunksOf_props : ∀ (N : Nat) (l : List Nat), l.length ≤ N →
    (∀ c ∈ chunksOf 50 l, c ≠ [] ∧ c.length ≤ 50 ∧ ∀ x ∈ c, x ∈ l) ∧
    (l ≠ [] → (chunksOf 50 l).length = (l.length + 49) / 50) := by
  intro N
  induction N with
  | zero =>
    intro l hl
    have hnil : l = [] := by
      cases l
      · rfl
      · simp at hl
    subst hnil
    exact ⟨fun c hc => absurd hc (by rw [chunksOf_nil]; simp), fun h => absurd rfl h⟩
  | succ N ih =>
    intro l hl
    cases l with
    | nil => exact ⟨fun c hc => absurd hc (by rw [chunksOf_nil]; simp), fun h => absurd rfl h⟩
    | cons a t =>
      rw [chunksOf_cons 50 (by norm_num)]
      have hdroplen : ((a :: t).drop 50).length ≤ N := by
        rw [List.length_drop, List.length_cons]
        rw [List.length_cons] at hl
        omega
      obtain ⟨ihmem, ihlen⟩ := ih _ hdroplen
      constructor
      · intro c hc
        rcases List.mem_cons.mp hc with rfl | hc
        · refine ⟨by simp, by simp, ?_⟩
          intro x hx
          exact List.mem_of_mem_take hx
        · obtain ⟨hne, hle, hsub⟩ := ihmem c hc
          exact ⟨hne, hle, fun x hx => List.mem_of_mem_drop (hsub x hx)⟩
      · intro _
        by_cases hd : (a :: t).drop 50 = []
        · rw [hd, chunksOf_nil]
          have hlen : (a :: t).length ≤ 50 := by
            have := congrArg List.length hd
            rw [List.length_drop] at this
            simp at this ⊢
            omega
          rw [List.length_cons] at hlen ⊢
          simp
          omega
        · rw [List.length_cons, ihlen hd, List.length_drop]
          have : 50 < (a :: t).length := by
            by_contra hcon
            push_neg at hcon
            exact hd (List.drop_eq_nil_of_le hcon)
          rw [List.length_cons] at this
          rw [List.length_cons]
          omega

/-! ## Lemmas: prepare_scores traces -/

lemma processChunks_trace (env : ScoresEnv) :
    ∀ (chunks : List (List Nat)) (scores : List Score),
      (∀ c ∈ chunks, ∃ ms, env.fetchMaps c = Except.ok ms) →
      (processChunks env scores chunks).2 = chunks.map DbEvent.upstreamBatch := by
  intro chunks
  induction chunks with
  | nil => intro scores _; rfl
  | cons c rest ih =>
    intro scores hok
    obtain ⟨ms, hms⟩ := hok c (by simp)
    simp only [processChunks, hms]
    rw [ih _ fun c' hc' => hok c' (List.mem_cons_of_mem _ hc')]
    rw [List.map_cons]

lemma fillFromDb_sub (combos : List (Nat × Option Nat)) :
    ∀ scores : List Score, ∀ i ∈ (fillFromDb combos scores).2,
      toI32 i ∈ gatherMissingIds scores := by
  intro scores
  induction scores with
  | nil => intro i hi; cases hi
  | cons s rest ih =>
    obtain ⟨smode, smap⟩ := s
    intro i hi
    cases smap with
    | none =>
      simp only [fillFromDb] at hi
      simp only [gatherMissingIds]
      exact ih i hi
    | some m =>
      simp only [fillFromDb] at hi
      simp only [gatherMissingIds]
      by_cases hq : m.max_combo = none ∧ m.mode ≠ GameMode.Mania
      · rw [if_pos hq] at hi ⊢
        cases hlook : combos.lookup m.map_id with
        | none =>
          rw [hlook] at hi
          simp only [List.mem_cons] at hi ⊢
          rcases hi with rfl | hi
          · exact Or.inl rfl
          · exact Or.inr (ih i hi)
        | some o =>
          cases o with
          | none =>
            rw [hlook] at hi
            simp only [List.mem_cons] at hi ⊢
            rcases hi with rfl | hi
            · exact Or.inl rfl
            · exact Or.inr (ih i hi)
          | some combo =>
            rw [hlook] at hi
            simp only [List.mem_cons]
            exact Or.inr (ih i hi)
      · rw [if_neg hq] at hi ⊢
        exact ih i hi

lemma gather_ne_nil_of_missing {combos : List (Nat × Option Nat)} {scores : List Score}
    (h : (fillFromDb combos scores).2 ≠ []) : gatherMissingIds scores ≠ [] := by
  intro hg
  rcases List.exists_mem_of_ne_nil _ h with ⟨i, hi⟩
  have := fillFromDb_sub combos scores i hi
  rw [hg] at this
  cases this

/-! ## Lemmas: mania preservation in prepare_scores -/

lemma maniaRel_refl (s : Score) : maniaRel s s :=
  ⟨fun m hm => ⟨m, hm, rfl, rfl⟩, fun _ _ _ => rfl⟩

lemma maniaRel_trans {s t u : Score} (h1 : maniaRel s t) (h2 : maniaRel t u) : maniaRel s u := by
  constructor
  · intro m hm
    obtain ⟨m1, hm1, hid1, hmode1⟩ := h2.1 m hm
    obtain ⟨m0, hm0, hid0, hmode0⟩ := h1.1 m1 hm1
    exact ⟨m0, hm0, by rw [hid0, hid1], by rw [hmode0, hmode1]⟩
  · intro m hm hmania
    have ht := h1.2 m hm hmania
    have hu := h2.2 m (by rw [ht]; exact hm) hmania
    rw [hu, ht]

lemma forall₂_maniaRel_refl (l : List Score) : List.Forall₂ maniaRel l l := by
  induction l with
  | nil => exact List.Forall₂.nil
  | cons s rest ih => exact List.Forall₂.cons (maniaRel_refl s) ih

lemma forall₂_maniaRel_trans :
    ∀ {l1 l2 l3 : List Score}, List.Forall₂ maniaRel l1 l2 → List.Forall₂ maniaRel l2 l3 →
      List.Forall₂ maniaRel l1 l3 := by
  intro l1 l2 l3 h1
  induction h1 generalizing l3 with
  | nil =>
    intro h2
    cases h2
    exact .nil
  | cons hst hrest ih =>
    intro h2
    cases h2 with
    | cons hst2 hrest2 => exact .cons (maniaRel_trans hst hst2) (ih hrest2)

/-- Any property of the ids of mania-mode maps transports along `maniaRel`,
since enrichment preserves map identity. -/
lemma maniaRel_carry {l1 l2 : List Score} (hrel : List.Forall₂ maniaRel l1 l2) (P : Nat → Prop)
    (h : ∀ s ∈ l1, ∀ m, s.map = some m → m.mode = GameMode.Mania → P m.map_id) :
    ∀ s ∈ l2, ∀ m, s.map = some m → m.mode = GameMode.Mania → P m.map_id := by
  induction hrel with
  | nil => intro s hs; cases hs
  | cons hst hrest ih =>
    intro s hs m hm hmania
    rcases List.mem_cons.mp hs with rfl | hs
    · obtain ⟨m0, hm0, hid, hmode⟩ := hst.1 m hm
      have hp := h _ (by simp) m0 hm0 (by rw [hmode]; exact hmania)
      rw [← hid]
      exact hp
    · exact ih (fun s' hs' => h s' (List.mem_cons_of_mem _ hs')) s hs m hm hmania

lemma fillMapCombo_rel (mapId combo : Nat) :
    ∀ scores : List Score,
      (∀ s ∈ scores, ∀ m, s.map = some m → m.mode = GameMode.Mania → m.map_id ≠ mapId) →
      List.Forall₂ maniaRel scores (fillMapCombo mapId combo scores) := by
  intro scores
  induction scores with
  | nil => intro _; exact .nil
  | cons s rest ih =>
    obtain ⟨smode, smap⟩ := s
    intro h
    cases smap with
    | none =>
      simp only [fillMapCombo]
      exact .cons (maniaRel_refl _) (ih fun s' hs' => h s' (List.mem_cons_of_mem _ hs'))
    | some m =>
      simp only [fillMapCombo]
      by_cases hid : m.map_id = mapId
      · rw [if_pos hid]
        refine .cons ⟨?_, ?_⟩ (forall₂_maniaRel_refl rest)
        · intro m' hm'
          have hm'' : m' = { m with max_combo := some combo } := by
            injection hm' with h'
            exact h'.symm
          subst hm''
          exact ⟨m, rfl, rfl, rfl⟩
        · intro m' hm' hmania
          have hmm : m' = m := by
            injection hm' with h'
            exact h'.symm
          exfalso
          exact h _ (by simp) m' hm' hmania (by rw [hmm]; exact hid)
      · rw [if_neg hid]
        exact .cons (maniaRel_refl _) (ih fun s' hs' => h s' (List.mem_cons_of_mem _ hs'))

lemma applyFetched_rel :
    ∀ (fetched : List BeatmapCompact) (scores : List Score),
      (∀ bm ∈ fetched, ∀ s ∈ scores, ∀ m, s.map = some m → m.mode = GameMode.Mania →
        m.map_id ≠ bm.map_id) →
      List.Forall₂ maniaRel scores (applyFetched scores fetched) := by
  intro fetched
  induction fetched with
  | nil => intro scores _; exact forall₂_maniaRel_refl scores
  | cons bm rest ih =>
    intro scores h
    cases hc : bm.max_combo with
    | none =>
      simp only [applyFetched, hc]
      exact ih scores fun bm' hbm' => h bm' (List.mem_cons_of_mem _ hbm')
    | some combo =>
      simp only [applyFetched, hc]
      have h1 : List.Forall₂ maniaRel scores (fillMapCombo bm.map_id combo scores) :=
        fillMapCombo_rel bm.map_id combo scores fun s hs m hm hmania =>
          h bm (by simp) s hs m hm hmania
      refine forall₂_maniaRel_trans h1 (ih _ ?_)
      intro bm' hbm'
      exact maniaRel_carry h1 (· ≠ bm'.map_id)
        (fun s hs m hm hmania => h bm' (List.mem_cons_of_mem _ hbm') s hs m hm hmania)

lemma fillFromDb_rel (combos : List (Nat × Option Nat)) :
    ∀ scores : List Score, List.Forall₂ maniaRel scores (fillFromDb combos scores).1 := by
  intro scores
  induction scores with
  | nil => exact .nil
  | cons s rest ih =>
    obtain ⟨smode, smap⟩ := s
    cases smap with
    | none =>
      simp only [fillFromDb]
      exact .cons (maniaRel_refl _) ih
    | some m =>
      simp only [fillFromDb]
      by_cases hq : m.max_combo = none ∧ m.mode ≠ GameMode.Mania
      · rw [if_pos hq]
        cases hlook : combos.lookup m.map_id with
        | none => exact .cons (maniaRel_refl _) ih
        | some o =>
          cases o with
          | none => exact .cons (maniaRel_refl _) ih
          | some combo =>
            refine .cons ⟨?_, ?_⟩ ih
            · intro m' hm'
              have hm'' : m' = { m with max_combo := some combo } := by
                injection hm' with h'
                exact h'.symm
              subst hm''
              exact ⟨m, rfl, rfl, rfl⟩
            · intro m' hm' hmania
              have hmm : m' = m := by
                injection hm' with h'
                exact h'.symm
              exact absurd (by rw [← hmm]; exact hmania) hq.2
      · rw [if_neg hq]
        exact .cons (maniaRel_refl _) ih

lemma processChunks_rel (env : ScoresEnv) (B : List Nat)
    (hapi : ∀ c ms, env.fetchMaps c = Except.ok ms → ∀ bm ∈ ms, bm.map_id ∈ c) :
    ∀ (chunks : List (List Nat)) (scores out : List Score) (evs : List DbEvent),
      (∀ c ∈ chunks, ∀ x ∈ c, x ∈ B) →
      (∀ s ∈ scores, ∀ m, s.map = some m → m.mode = GameMode.Mania → m.map_id ∉ B) →
      processChunks env scores chunks = (.ok out, evs) →
      List.Forall₂ maniaRel scores out := by
  intro chunks
  induction chunks with
  | nil =>
    intro scores out evs _ _ hproc
    simp only [processChunks, Prod.mk.injEq] at hproc
    obtain ⟨h1, _⟩ := hproc
    injection h1 with h1
    rw [← h1]
    exact forall₂_maniaRel_refl scores
  | cons c rest ih =>
    intro scores out evs hsub hmania hproc
    cases hms : env.fetchMaps c with
    | error e =>
      rw [processChunks, hms] at hproc
      simp only [Prod.mk.injEq] at hproc
      exact absurd hproc.1 (by simp)
    | ok ms =>
      rw [processChunks, hms] at hproc
      simp only [Prod.mk.injEq] at hproc
      have h1 : List.Forall₂ maniaRel scores (applyFetched scores ms) := by
        refine applyFetched_rel ms scores ?_
        intro bm hbm s hs m hm hmode heq
        have hin : bm.map_id ∈ c := hapi c ms hms bm hbm
        have hinB : bm.map_id ∈ B := hsub c (by simp) bm.map_id hin
        exact hmania s hs m hm hmode (by rw [heq]; exact hinB)
      refine forall₂_maniaRel_trans h1
        (ih (applyFetched scores ms) out (processChunks env (applyFetched scores ms) rest).2
          (fun c' hc' => hsub c' (List.mem_cons_of_mem _ hc'))
          (maniaRel_carry h1 (· ∉ B) hmania) ?_)
      exact Prod.ext hproc.1 rfl

/-! ## Claims -/

/-- C1: for every entity type's read-through operation (the seven
`entityOp` instances and `osu_user`), if acquiring a cache backend
connection fails, the operation still calls the upstream fetcher once
and, whenever that standalone fetch succeeds, returns its successful
result; the connection failure is never surfaced to the caller. -/
theorem claim_C1_cache_backend_optional :
    (∀ (ε α : Type) (key : Str) (ttl : Nat) (ser : α → Str) (env : EntityEnv ε α) (a : α),
        env.connOk = false → env.upstream = .ok a →
        entityOp key ttl ser env = (.ok (ser a), ⟨0, 1, []⟩)) ∧
    (∀ (env : OsuUserEnv) (args : UserArgs) (u : User),
        env.connOk = false → env.upstream = .ok u →
        (osu_user env args).1 = .ok u ∧ (osu_user env args).2.upstreamCalls = 1) := by
  constructor
  · intro ε α key ttl ser env a hconn hup
    simp [entityOp, hconn, hup]
  · intro env args u hconn hup
    simp [osu_user, hconn, hup, noEffects]

theorem claim_C1_witness :
    entityOp ([] : Str) 0 (fun n : Nat => [n])
        (⟨false, none, Except.ok 5⟩ : EntityEnv Nat Nat) = (.ok [5], ⟨0, 1, []⟩) ∧
    (osu_user ⟨false, none, .ok ⟨42, [66], some [104], 7⟩, false, false⟩
        ⟨[66], GameMode.Osu⟩).1 = .ok ⟨42, [66], some [104], 7⟩ ∧
    (osu_user ⟨false, none, .ok ⟨42, [66], some [104], 7⟩, false, false⟩
        ⟨[66], GameMode.Osu⟩).2.upstreamCalls = 1 :=
  ⟨claim_C1_cache_backend_optional.1 Nat Nat [] 0 _ _ 5 rfl rfl,
   (claim_C1_cache_backend_optional.2 _ ⟨[66], GameMode.Osu⟩ _ rfl rfl).1,
   (claim_C1_cache_backend_optional.2 _ ⟨[66], GameMode.Osu⟩ _ rfl rfl).2⟩

/-- C3: whenever `osu_user` consults the upstream (no cache hit) and the
upstream answers `NotFound`, `remove_osu_user_stats` is invoked exactly
once with the looked-up name, no cache write and no DB upsert occur, and
`NotFound` is returned; a failure of the cleanup itself does not change
the returned result. -/
theorem claim_C3_notfound_cleanup (env : OsuUserEnv) (args : UserArgs)
    (hmiss : env.connOk = false ∨ env.cacheGet = none ∨ env.cacheGet = some [])
    (hup : env.upstream = .error .notFound) :
    (osu_user env args).1 = .error OsuError.notFound ∧
    (osu_user env args).2.removeStats = [args.name] ∧
    (osu_user env args).2.cacheWrites = [] ∧
    (osu_user env args).2.upserts = [] ∧
    (osu_user { env with removeStatsFails := true } args).1 = (osu_user env args).1 := by
  cases hconn : env.connOk <;>
    rcases hmiss with h | h | h <;>
      simp_all [osu_user, osuUserMiss, noEffects]

theorem claim_C3_witness :
    (osu_user ⟨true, some [], .error .notFound, true, false⟩ ⟨[103], GameMode.Osu⟩).1 =
      .error OsuError.notFound ∧
    (osu_user ⟨true, some [], .error .notFound, true, false⟩ ⟨[103], GameMode.Osu⟩).2.removeStats =
      [[103]] ∧
    (osu_user ⟨true, some [], .error .notFound, true, false⟩ ⟨[103], GameMode.Osu⟩).2.cacheWrites =
      [] ∧
    (osu_user ⟨true, some [], .error .notFound, true, false⟩ ⟨[103], GameMode.Osu⟩).2.upserts =
      [] := by
  obtain ⟨h1, h2, h3, h4, _⟩ :=
    claim_C3_notfound_cleanup ⟨true, some [], .error .notFound, true, false⟩
      ⟨[103], GameMode.Osu⟩ (Or.inr (Or.inr rfl)) rfl
  exact ⟨h1, h2, h3, h4⟩

/-- C5: for every entity type's read-through operation, an empty byte
answer from the cache backend behaves exactly like a miss (same result
and effects as a failed `GET`, one upstream call, no deserialization of
the empty bytes, no hit counter), while a non-empty byte answer is
returned as a hit with no upstream call and no cache write. -/
theorem claim_C5_empty_bytes_is_miss :
    (∀ (ε α : Type) (key : Str) (ttl : Nat) (ser : α → Str) (env : EntityEnv ε α),
        env.connOk = true → env.cacheGet = some [] →
        entityOp key ttl ser env = entityOp key ttl ser { env with cacheGet := none } ∧
        (entityOp key ttl ser env).2.upstreamCalls = 1 ∧
        (entityOp key ttl ser env).2.metricsInc = 0) ∧
    (∀ (ε α : Type) (key : Str) (ttl : Nat) (ser : α → Str) (env : EntityEnv ε α) (b : Str),
        env.connOk = true → env.cacheGet = some b → b ≠ [] →
        (entityOp key ttl ser env).1 = .ok b ∧
        (entityOp key ttl ser env).2.upstreamCalls = 0 ∧
        (entityOp key ttl ser env).2.cacheWrites = []) ∧
    (∀ (env : OsuUserEnv) (args : UserArgs),
        env.connOk = true → env.cacheGet = some [] →
        osu_user env args = osu_user { env with cacheGet := none } args) ∧
    (∀ (env : OsuUserEnv) (args : UserArgs) (b : Str),
        env.connOk = true → env.cacheGet = some b → b ≠ [] →
        (osu_user env args).1 = .ok (deserUser b) ∧
        (osu_user env args).2.upstreamCalls = 0) := by
  refine ⟨?_, ?_, ?_, ?_⟩
  · intro ε α key ttl ser env hconn hget
    cases hup : env.upstream <;>
      simp [entityOp, fetchAndWrite, hconn, hget, hup]
  · intro ε α key ttl ser env b hconn hget hb
    cases b with
    | nil => exact absurd rfl hb
    | cons x xs => simp [entityOp, hconn, hget]
  · intro env args hconn hget
    simp only [osu_user, hconn, hget]
    rfl
  · intro env args b hconn hget hb
    cases b with
    | nil => exact absurd rfl hb
    | cons x xs => simp [osu_user, hconn, hget, noEffects]

theorem claim_C5_witness :
    (entityOp ([] : Str) 0 (fun n : Nat => [n]) (⟨true, some [], Except.ok 5⟩ : EntityEnv Nat Nat) =
      entityOp ([] : Str) 0 (fun n : Nat => [n]) (⟨true, none, Except.ok 5⟩ : EntityEnv Nat Nat)) ∧
    (entityOp ([] : Str) 0 (fun n : Nat => [n])
      (⟨true, some [9], Except.ok 5⟩ : EntityEnv Nat Nat)).1 = .ok [9] ∧
    (osu_user ⟨true, some [], .ok ⟨1, [], none, 0⟩, false, false⟩ ⟨[], GameMode.Osu⟩ =
      osu_user ⟨true, none, .ok ⟨1, [], none, 0⟩, false, false⟩ ⟨[], GameMode.Osu⟩) := by
  refine ⟨(claim_C5_empty_bytes_is_miss.1 Nat Nat [] 0 _ _ rfl rfl).1, ?_, ?_⟩
  · exact (claim_C5_empty_bytes_is_miss.2.1 Nat Nat [] 0 _ _ [9] rfl rfl (by decide)).1
  · exact claim_C5_empty_bytes_is_miss.2.2.1 _ _ rfl rfl

/-- C8: the per-entity-type hit counter is incremented exactly once on a
cache hit (non-empty bytes from an acquired connection) and is never
incremented on a miss, on backend unavailability, or on the
upstream-fetch path. -/
theorem claim_C8_metrics_hit_only :
    (∀ (ε α : Type) (key : Str) (ttl : Nat) (ser : α → Str) (env : EntityEnv ε α),
        (entityOp key ttl ser env).2.metricsInc = if entityHit env then 1 else 0) ∧
    (∀ (env : OsuUserEnv) (args : UserArgs),
        (osu_user env args).2.cachedUserInc = if userHit env then 1 else 0) := by
  constructor
  · intro ε α key ttl ser env
    cases hconn : env.connOk
    · cases hup : env.upstream <;> simp [entityOp, entityHit, fetchAndWrite, hconn, hup]
    · cases hget : env.cacheGet with
      | none => cases hup : env.upstream <;>
          simp [entityOp, entityHit, fetchAndWrite, hconn, hget, hup]
      | some bytes =>
        cases hb : bytes.isEmpty
        · simp [entityOp, entityHit, hconn, hget, hb]
        · cases hup : env.upstream <;>
            simp [entityOp, entityHit, fetchAndWrite, hconn, hget, hup, hb]
  · intro env args
    cases hconn : env.connOk
    · cases hup : env.upstream with
      | error e => cases e <;> simp [osu_user, userHit, hconn, hup, noEffects]
      | ok u => simp [osu_user, userHit, hconn, hup, noEffects]
    · cases hget : env.cacheGet with
      | none =>
        cases hup : env.upstream with
        | error e => cases e <;> simp [osu_user, osuUserMiss, userHit, hconn, hget, hup, noEffects]
        | ok u => simp [osu_user, osuUserMiss, userHit, hconn, hget, hup, noEffects]
      | some bytes =>
        cases hb : bytes.isEmpty
        · simp [osu_user, userHit, hconn, hget, hb, noEffects]
        · cases hup : env.upstream with
          | error e =>
            cases e <;> simp [osu_user, osuUserMiss, userHit, hconn, hget, hup, hb, noEffects]
          | ok u => simp [osu_user, osuUserMiss, userHit, hconn, hget, hup, hb, noEffects]

/-- C9: on the miss-populate path the returned user and the cached bytes
both have `page = None` with every other field as fetched, while on the
backend-unavailable path the fetched user is returned with all fields,
including `page`, unchanged and nothing is written to the cache. -/
theorem claim_C9_page_stripped (env : OsuUserEnv) (args : UserArgs) (u : User)
    (hup : env.upstream = .ok u) :
    (env.connOk = true → (env.cacheGet = none ∨ env.cacheGet = some []) →
      (osu_user env args).1 = .ok { u with page := none } ∧
      (osu_user env args).2.cacheWrites =
        [(osu_user_key args.name args.mode, serUser { u with page := none }, USER_SECONDS)]) ∧
    (env.connOk = false →
      (osu_user env args).1 = .ok u ∧ (osu_user env args).2.cacheWrites = []) := by
  constructor
  · rintro hconn (h | h) <;> simp [osu_user, osuUserMiss, hconn, h, hup, erasePage, noEffects]
  · intro hconn
    simp [osu_user, hconn, hup, noEffects]

theorem claim_C9_witness :
    (osu_user ⟨true, some [], .ok ⟨42, [66], some [104], 7⟩, false, false⟩
        ⟨[66], GameMode.Osu⟩).1 = .ok ⟨42, [66], none, 7⟩ ∧
    (osu_user ⟨false, none, .ok ⟨42, [66], some [104], 7⟩, false, false⟩
        ⟨[66], GameMode.Osu⟩).1 = .ok ⟨42, [66], some [104], 7⟩ := by
  constructor
  · exact ((claim_C9_page_stripped ⟨true, some [], .ok ⟨42, [66], some [104], 7⟩, false, false⟩
      ⟨[66], GameMode.Osu⟩ ⟨42, [66], some [104], 7⟩ rfl).1 rfl (Or.inr rfl)).1
  · exact ((claim_C9_page_stripped ⟨false, none, .ok ⟨42, [66], some [104], 7⟩, false, false⟩
      ⟨[66], GameMode.Osu⟩ ⟨42, [66], some [104], 7⟩ rfl).2 rfl).1

/-- C2: `get_user` retries exactly once, with underscores replaced by
spaces, precisely when the name has no leading or trailing underscore
but contains an underscore and the first `osu_user` lookup returns
`NotFound`; the retry uses a different cache key, its result (including
a second `NotFound`) is returned as is, and no retry happens otherwise. -/
theorem claim_C2_underscore_retry (lookup : Str → GameMode → Except OsuError User)
    (name : Str) (mode : GameMode) :
    ((whitespaced_name name).isSome ↔
      name.head? ≠ some 95 ∧ name.getLast? ≠ some 95 ∧ 95 ∈ name) ∧
    (∀ alt, whitespaced_name name = some alt →
      alt = (name.map fun c => if c = 95 then 32 else c) ∧
      osu_user_key alt mode ≠ osu_user_key name mode ∧
      (lookup name mode = .error .notFound →
        get_user lookup ⟨name, mode⟩ = (lookup alt mode, [(name, mode), (alt, mode)])) ∧
      (lookup name mode ≠ .error .notFound →
        get_user lookup ⟨name, mode⟩ = (lookup name mode, [(name, mode)]))) ∧
    (whitespaced_name name = none →
      get_user lookup ⟨name, mode⟩ = (lookup name mode, [(name, mode)])) := by
  refine ⟨⟨?_, ?_⟩, ?_, ?_⟩
  · intro h
    obtain ⟨alt, halt⟩ := Option.isSome_iff_exists.mp h
    obtain ⟨h1, h2, h3, _⟩ := whitespaced_name_eq_some.mp halt
    exact ⟨h1, h2, h3⟩
  · rintro ⟨h1, h2, h3⟩
    rw [whitespaced_name_eq_some.mpr ⟨h1, h2, h3, rfl⟩]
    rfl
  · intro alt halt
    obtain ⟨_, _, _, h4⟩ := whitespaced_name_eq_some.mp halt
    refine ⟨h4, ?_, ?_, ?_⟩
    · intro hkeys
      exact whitespaced_alt_ne halt (osu_user_key_inj hkeys).1
    · intro hnf
      simp [get_user, halt, hnf]
    · intro hnnf
      cases hl : lookup name mode with
      | ok u => simp [get_user, halt, hl]
      | error e =>
        cases e with
        | notFound => exact absurd hl hnnf
        | response code => simp [get_user, halt, hl]
  · intro hnone
    simp [get_user, hnone]

theorem claim_C2_witness :
    whitespaced_name [102, 111, 111, 95, 98, 97, 114] = some [102, 111, 111, 32, 98, 97, 114] ∧
    osu_user_key [102, 111, 111, 32, 98, 97, 114] GameMode.Osu ≠
      osu_user_key [102, 111, 111, 95, 98, 97, 114] GameMode.Osu ∧
    get_user
        (fun n _ =>
          if n = [102, 111, 111, 95, 98, 97, 114] then .error .notFound
          else .ok ⟨3, n, none, 0⟩)
        ⟨[102, 111, 111, 95, 98, 97, 114], GameMode.Osu⟩ =
      (.ok ⟨3, [102, 111, 111, 32, 98, 97, 114], none, 0⟩,
        [([102, 111, 111, 95, 98, 97, 114], GameMode.Osu),
         ([102, 111, 111, 32, 98, 97, 114], GameMode.Osu)]) := by
  have h := (claim_C2_underscore_retry
    (fun n _ =>
      if n = [102, 111, 111, 95, 98, 97, 114] then Except.error OsuError.notFound
      else Except.ok ⟨3, n, none, 0⟩)
    [102, 111, 111, 95, 98, 97, 114] GameMode.Osu).2.1
    [102, 111, 111, 32, 98, 97, 114] (by decide)
  refine ⟨by decide, h.2.1, ?_⟩
  rw [h.2.2.1 (by decide)]
  decide

/-- C6 counterexample: the claim that two `osu_user` calls over the same
upstream data return logically equal users regardless of the serving
path is false: with an upstream user whose `page` is set, the
backend-unavailable path returns the user with its page, while the
miss-populate path returns the user with `page` stripped. -/
theorem claim_C6_counterexample :
    (osu_user ⟨false, none, .ok ⟨42, [66], some [104], 7⟩, false, false⟩
        ⟨[66], GameMode.Osu⟩).1 ≠
    (osu_user ⟨true, some [], .ok ⟨42, [66], some [104], 7⟩, false, false⟩
        ⟨[66], GameMode.Osu⟩).1 := by
  decide

/-- C6 (amended): for a fixed upstream user and a cache that can hold
only what a previous populate wrote, any two `osu_user` calls return
users that agree on every field except possibly `page` (equal after
stripping the page), regardless of which of the three paths served each
call. -/
theorem claim_C6_amended_idempotent_read (env1 env2 : OsuUserEnv) (args : UserArgs) (u : User)
    (h1 : env1.upstream = .ok u) (h2 : env2.upstream = .ok u)
    (hc1 : validCacheFor u env1) (hc2 : validCacheFor u env2) :
    (osu_user env1 args).1.map erasePage = .ok (erasePage u) ∧
    (osu_user env1 args).1.map erasePage = (osu_user env2 args).1.map erasePage := by
  have key : ∀ env : OsuUserEnv, env.upstream = .ok u → validCacheFor u env →
      (osu_user env args).1.map erasePage = .ok (erasePage u) := by
    intro env hup hvc
    cases hconn : env.connOk
    · simp [osu_user, hconn, hup, erasePage, Except.map]
    · cases hget : env.cacheGet with
      | none => simp [osu_user, osuUserMiss, hconn, hget, hup, erasePage, Except.map]
      | some b =>
        by_cases hbe : b = []
        · subst hbe
          simp [osu_user, osuUserMiss, hconn, hget, hup, erasePage, Except.map]
        · have hbytes := hvc b hget hbe
          subst hbytes
          simp [osu_user, hconn, hget, hbe, deserUser_serUser, erasePage_idem, Except.map]
  exact ⟨key env1 h1 hc1, by rw [key env1 h1 hc1, key env2 h2 hc2]⟩

theorem claim_C6_amended_witness :
    (osu_user ⟨false, none, .ok ⟨42, [66], some [104], 7⟩, false, false⟩
        ⟨[66], GameMode.Osu⟩).1.map erasePage = .ok (erasePage ⟨42, [66], some [104], 7⟩) ∧
    (osu_user ⟨false, none, .ok ⟨42, [66], some [104], 7⟩, false, false⟩
        ⟨[66], GameMode.Osu⟩).1.map erasePage =
      (osu_user ⟨true, some (serUser (erasePage ⟨42, [66], some [104], 7⟩)),
          .ok ⟨42, [66], some [104], 7⟩, false, false⟩ ⟨[66], GameMode.Osu⟩).1.map erasePage :=
  claim_C6_amended_idempotent_read _ _ ⟨[66], GameMode.Osu⟩ ⟨42, [66], some [104], 7⟩ rfl rfl
    (fun b hb => nomatch hb)
    (fun b hb _ => by
      injection hb with h'
      exact h'.symm)

/-- C7: the cache key scheme is injective across all logical entities:
equal keys force equal entity type and equal identifying fields; in
particular distinct `(name, mode)` pairs give distinct user keys,
distinct `(mode, page, country)` triples give distinct pp-ranking keys,
and keys of different entity types never collide (`keyOf` itself being a
deterministic function of the identifying fields only). -/
theorem claim_C7_cache_key_injective (e1 e2 : EntityId) (h : keyOf e1 = keyOf e2) : e1 = e2 := by
  cases e1 <;> cases e2 <;>
    first
      | rfl
      | (simp [keyOf, badges_key, medals_key, osekai_ranking_key, osutracker_pp_group_key,
           osutracker_stats_key, osutracker_counts_key, pp_ranking_key, osu_user_key,
           countryTail] at h
         done)
      | skip
  · -- osekaiRanking
    simp only [keyOf, osekai_ranking_key] at h
    rw [List.append_cancel_left h]
  · -- osutrackerPpGroup
    simp only [keyOf, osutracker_pp_group_key] at h
    rw [natDigits_inj (List.append_cancel_left h)]
  · -- ppRanking
    obtain ⟨hm, hp, hc⟩ := pp_ranking_key_inj h
    rw [hm, hp, hc]
  · -- osuUser
    obtain ⟨hn, hm⟩ := osu_user_key_inj h
    rw [hn, hm]

theorem claim_C7_witness :
    EntityId.osuUser [102, 111, 111] GameMode.Taiko =
      EntityId.osuUser [102, 111, 111] GameMode.Taiko ∧
    EntityId.ppRanking GameMode.Osu 12 (some [85, 83]) =
      EntityId.ppRanking GameMode.Osu 12 (some [85, 83]) :=
  ⟨claim_C7_cache_key_injective _ _ (by decide),
   claim_C7_cache_key_injective _ _ (by decide)⟩

/-- C4: when `N > 0` map ids are still missing a combo after the batched
DB read, `prepare_scores` issues exactly one batched DB combo read (over
all initially missing ids, before any upstream call) followed by exactly
`ceil(N/50)` batched upstream fetches over non-empty chunks of at most
50 ids each — never one upstream call per individual map. -/
theorem claim_C4_batched_enrichment (env : ScoresEnv) (scores : List Score) (missing : List Nat)
    (hfill : (fillFromDb (dbCombosResult env (gatherMissingIds scores)) scores).2 = missing)
    (hne : missing ≠ [])
    (hfetch : ∀ c ∈ chunksOf 50 missing, ∃ ms, env.fetchMaps c = Except.ok ms) :
    (prepare_scores env scores).2 =
      DbEvent.comboRead (gatherMissingIds scores) ::
        (chunksOf 50 missing).map DbEvent.upstreamBatch ∧
    (chunksOf 50 missing).length = (missing.length + 49) / 50 ∧
    (∀ c ∈ chunksOf 50 missing, c ≠ [] ∧ c.length ≤ 50) := by
  have hg : gatherMissingIds scores ≠ [] :=
    gather_ne_nil_of_missing (by rw [hfill]; exact hne)
  have hgE : (gatherMissingIds scores).isEmpty = false := by
    cases hgl : gatherMissingIds scores with
    | nil => exact absurd hgl hg
    | cons a t => rfl
  have hmE : missing.isEmpty = false := by
    cases hml : missing with
    | nil => exact absurd hml hne
    | cons a t => rfl
  refine ⟨?_, (chunksOf_props missing.length missing le_rfl).2 hne, ?_⟩
  · simp only [prepare_scores, hgE, Bool.false_eq_true, if_false, hfill, hmE]
    rw [processChunks_trace env _ _ hfetch]
  · intro c hc
    obtain ⟨h1, h2, _⟩ := (chunksOf_props missing.length missing le_rfl).1 c hc
    exact ⟨h1, h2⟩

theorem claim_C4_witness :
    (prepare_scores ⟨fun _ => .ok [], fun _ => .ok []⟩
        [⟨GameMode.Osu, some ⟨1, GameMode.Osu, none⟩⟩,
         ⟨GameMode.Catch, some ⟨2, GameMode.Catch, none⟩⟩]).2 =
      DbEvent.comboRead
          (gatherMissingIds
            [⟨GameMode.Osu, some ⟨1, GameMode.Osu, none⟩⟩,
             ⟨GameMode.Catch, some ⟨2, GameMode.Catch, none⟩⟩]) ::
        (chunksOf 50 [1, 2]).map DbEvent.upstreamBatch ∧
    (chunksOf 50 [1, 2]).length = (([1, 2] : List Nat).length + 49) / 50 ∧
    (∀ c ∈ chunksOf 50 [1, 2], c ≠ [] ∧ c.length ≤ 50) :=
  claim_C4_batched_enrichment ⟨fun _ => .ok [], fun _ => .ok []⟩
    [⟨GameMode.Osu, some ⟨1, GameMode.Osu, none⟩⟩,
     ⟨GameMode.Catch, some ⟨2, GameMode.Catch, none⟩⟩]
    [1, 2] (by decide) (by decide) (fun c _ => ⟨[], rfl⟩)

/-- C10 counterexample: the claim that maps whose mode is mania keep
`max_combo = None` is false: with a mania map and an osu! map sharing
map id 7, the upstream back-fill (which matches by map id only) fills
the mania map's combo, and the osu! map even stays at `None`. -/
theorem claim_C10_counterexample :
    (prepare_scores ⟨fun _ => .ok [], fun _ => .ok [⟨7, GameMode.Osu, some 100⟩]⟩
        [⟨GameMode.Mania, some ⟨7, GameMode.Mania, none⟩⟩,
         ⟨GameMode.Osu, some ⟨7, GameMode.Osu, none⟩⟩]).1 =
      .ok [⟨GameMode.Mania, some ⟨7, GameMode.Mania, some 100⟩⟩,
           ⟨GameMode.Osu, some ⟨7, GameMode.Osu, none⟩⟩] := by
  decide

/-- C10 (amended): `prepare_scores` never collects ids for mania-mode
maps (dropping the mania-carrying scores changes neither the batched DB
read's ids nor the still-missing ids), and a mania map is left entirely
unchanged provided its id is not among the still-missing ids of
non-mania maps (the upstream back-fill matches by id only); the
single-score `prepare_score` additionally skips taiko, enriching only
scores of mode osu!/catch whose map lacks a combo. -/
theorem claim_C10_amended_mode_skips (scores : List Score) :
    (gatherMissingIds (scores.filter fun s => !hasManiaMap s) = gatherMissingIds scores ∧
     ∀ combos, (fillFromDb combos (scores.filter fun s => !hasManiaMap s)).2 =
       (fillFromDb combos scores).2) ∧
    (∀ (env : ScoresEnv) (out : List Score) (evs : List DbEvent),
      (∀ c ms, env.fetchMaps c = Except.ok ms → ∀ bm ∈ ms, bm.map_id ∈ c) →
      (∀ s ∈ scores, ∀ m, s.map = some m → m.mode = GameMode.Mania →
        m.map_id ∉ (fillFromDb (dbCombosResult env (gatherMissingIds scores)) scores).2) →
      prepare_scores env scores = (.ok out, evs) →
      List.Forall₂ (fun s t => ∀ m, s.map = some m → m.mode = GameMode.Mania → t = s)
        scores out) ∧
    (∀ (env : ScoreEnv) (score : Score),
      ((score.mode = GameMode.Taiko ∨ score.mode = GameMode.Mania) →
        prepare_score env score = (.ok score, [])) ∧
      (∀ m, score.map = some m → m.max_combo ≠ none →
        prepare_score env score = (.ok score, [])) ∧
      (∀ m, score.map = some m → (score.mode = GameMode.Osu ∨ score.mode = GameMode.Catch) →
        m.max_combo = none →
        (prepare_score env score).2.head? = some (DbEvent.comboReadSingle m.map_id))) := by
  refine ⟨⟨?_, ?_⟩, ?_, ?_⟩
  · induction scores with
    | nil => rfl
    | cons s rest ih =>
      obtain ⟨smode, smap⟩ := s
      cases smap with
      | none => simp [hasManiaMap_none, gatherMissingIds, List.filter_cons, ih]
      | some m =>
        by_cases hm : m.mode = GameMode.Mania
        · simp [hasManiaMap_some, gatherMissingIds, List.filter_cons, hm, ih]
        · simp [hasManiaMap_some, gatherMissingIds, List.filter_cons, hm, ih]
  · intro combos
    induction scores with
    | nil => rfl
    | cons s rest ih =>
      obtain ⟨smode, smap⟩ := s
      cases smap with
      | none => simp [hasManiaMap_none, fillFromDb, List.filter_cons, ih]
      | some m =>
        by_cases hm : m.mode = GameMode.Mania
        · simp [hasManiaMap_some, fillFromDb, List.filter_cons, hm, ih]
        · by_cases hq : m.max_combo = none
          · cases hlook : combos.lookup m.map_id with
            | none => simp [hasManiaMap_some, fillFromDb, List.filter_cons, hm, hq, hlook, ih]
            | some o =>
              cases o <;>
                simp [hasManiaMap_some, fillFromDb, List.filter_cons, hm, hq, hlook, ih]
          · simp [hasManiaMap_some, fillFromDb, List.filter_cons, hm, hq, ih]
  · intro env out evs hapi hmania hproc
    rw [prepare_scores] at hproc
    split at hproc
    · simp only [Prod.mk.injEq] at hproc
      obtain ⟨h1, _⟩ := hproc
      injection h1 with h1
      rw [← h1]
      exact List.Forall₂.imp (fun a b hab => hab.2) (forall₂_maniaRel_refl scores)
    · simp only [] at hproc
      split at hproc
      · simp only [Prod.mk.injEq] at hproc
        obtain ⟨h1, _⟩ := hproc
        injection h1 with h1
        rw [← h1]
        exact List.Forall₂.imp (fun a b hab => hab.2)
          (fillFromDb_rel (dbCombosResult env (gatherMissingIds scores)) scores)
      · simp only [Prod.mk.injEq] at hproc
        have hrel1 := fillFromDb_rel (dbCombosResult env (gatherMissingIds scores)) scores
        have hsub : ∀ c ∈ chunksOf 50
            (fillFromDb (dbCombosResult env (gatherMissingIds scores)) scores).2,
            ∀ x ∈ c, x ∈ (fillFromDb (dbCombosResult env (gatherMissingIds scores)) scores).2 :=
          fun c hc => ((chunksOf_props _ _ le_rfl).1 c hc).2.2
        have hrel2 := processChunks_rel env
          (fillFromDb (dbCombosResult env (gatherMissingIds scores)) scores).2 hapi
          (chunksOf 50 (fillFromDb (dbCombosResult env (gatherMissingIds scores)) scores).2)
          (fillFromDb (dbCombosResult env (gatherMissingIds scores)) scores).1 out _
          hsub
          (maniaRel_carry hrel1
            (fun id => id ∉ (fillFromDb (dbCombosResult env (gatherMissingIds scores)) scores).2)
            hmania)
          (Prod.ext hproc.1 rfl)
        exact List.Forall₂.imp (fun a b hab => hab.2) (forall₂_maniaRel_trans hrel1 hrel2)
  · intro env score
    obtain ⟨smode, smap⟩ := score
    refine ⟨?_, ?_, ?_⟩
    · rintro (rfl | rfl) <;> cases smap with
      | none => rfl
      | some m => simp [prepare_score]
    · intro m hm hcombo
      cases smap with
      | none => rfl
      | some m' =>
        injection hm with hmm
        subst hmm
        simp [prepare_score, hcombo]
    · intro m hm hmode hcombo
      cases smap with
      | none => exact absurd hm (by simp)
      | some m' =>
        injection hm with hmm
        subst hmm
        rcases hmode with rfl | rfl <;>
          cases hdb : env.dbCombo m'.map_id with
          | error e => cases hf : env.fetchMap m'.map_id <;>
              simp [prepare_score, hcombo, hdb, hf]
          | ok o =>
            cases o with
            | none => cases hf : env.fetchMap m'.map_id <;>
                simp [prepare_score, hcombo, hdb, hf]
            | some combo => simp [prepare_score, hcombo, hdb]

theorem claim_C10_amended_witness :
    gatherMissingIds
        (([⟨GameMode.Mania, some ⟨3, GameMode.Mania, none⟩⟩,
           ⟨GameMode.Osu, some ⟨4, GameMode.Osu, none⟩⟩] : List Score).filter
          fun s => !hasManiaMap s) =
      gatherMissingIds
        [⟨GameMode.Mania, some ⟨3, GameMode.Mania, none⟩⟩,
         ⟨GameMode.Osu, some ⟨4, GameMode.Osu, none⟩⟩] ∧
    List.Forall₂ (fun s t : Score => ∀ m, s.map = some m → m.mode = GameMode.Mania → t = s)
      ([⟨GameMode.Mania, some ⟨3, GameMode.Mania, none⟩⟩,
        ⟨GameMode.Osu, some ⟨4, GameMode.Osu, none⟩⟩] : List Score)
      ([⟨GameMode.Mania, some ⟨3, GameMode.Mania, none⟩⟩,
        ⟨GameMode.Osu, some ⟨4, GameMode.Osu, none⟩⟩] : List Score) ∧
    prepare_score ⟨fun _ => .ok none, fun _ => .ok ⟨9, GameMode.Taiko, some 5⟩⟩
        ⟨GameMode.Taiko, some ⟨9, GameMode.Taiko, none⟩⟩ =
      (.ok ⟨GameMode.Taiko, some ⟨9, GameMode.Taiko, none⟩⟩, []) := by
  have h := claim_C10_amended_mode_skips
    [⟨GameMode.Mania, some ⟨3, GameMode.Mania, none⟩⟩,
     ⟨GameMode.Osu, some ⟨4, GameMode.Osu, none⟩⟩]
  refine ⟨h.1.1, ?_, ?_⟩
  · exact h.2.1 ⟨fun _ => .ok [], fun _ => .ok []⟩
      [⟨GameMode.Mania, some ⟨3, GameMode.Mania, none⟩⟩,
       ⟨GameMode.Osu, some ⟨4, GameMode.Osu, none⟩⟩]
      [DbEvent.comboRead [4], DbEvent.upstreamBatch [4]]
      (by
        intro c ms hms bm hbm
        injection hms with h'
        subst h'
        cases hbm)
      (by
        intro s hs m hm hmode
        fin_cases hs
        · injection hm with hmm
          subst hmm
          decide
        · injection hm with hmm
          subst hmm
          exact absurd hmode (by decide))
      (by decide)
  · exact (h.2.2 ⟨fun _ => .ok none, fun _ => .ok ⟨9, GameMode.Taiko, some 5⟩⟩
      ⟨GameMode.Taiko, some ⟨9, GameMode.Taiko, none⟩⟩).1 (Or.inl rfl)

end Bathbot
